import Mathlib

/-!
Verification development for the stake-pool CLI (`src/main.rs`).

The program reads a stake pool and its validator list from the ledger, runs the
maintenance (update) plan, and then executes one user operation: deposit-sol,
increase-validator-stake or decrease-validator-stake.  Every effectful function
of the source is embedded here as a pure planner returning the ordered list of
batches it submits via `send_instructions`; each `Batch` records the
instructions, the fee payer, the signer list and the `wait` flag of one
`send_instructions` call.

Currency conversion (`solana_native_token::sol_to_lamports`) is
`(sol * 1_000_000_000f64) as u64` in Rust.  A finite IEEE-754 double is a dyadic
rational `±mant * 2^exp`, so the conversion is modelled exactly in integer
arithmetic: the double multiplication is round-to-nearest-even on the product
significand, the `as u64` cast truncates toward zero and saturates (negative
values and NaN go to 0).  Overflow to infinity and subnormal inputs are outside
the modelled range; all amounts of interest are far inside it.
-/

/-- Number of bits of a natural number (`bitLen 0 = 0`, `2^(bitLen n - 1) ≤ n < 2^(bitLen n)`
for `n > 0`).  Fuel-based so that it reduces definitionally. -/
def bitLenAux : ℕ → ℕ → ℕ
  | 0, _ => 0
  | _ + 1, 0 => 0
  | f + 1, n + 1 => bitLenAux f ((n + 1) / 2) + 1

def bitLen (n : ℕ) : ℕ := bitLenAux n n

/-- Round `n / 2^shift` to the nearest integer, ties to even (the IEEE-754
default rounding applied to a positive significand); `shift ≥ 1` at use sites. -/
def rnShift (n shift : ℕ) : ℕ :=
  let q := n / 2 ^ shift
  let r := n % 2 ^ shift
  let half := 2 ^ shift / 2
  if r < half then q
  else if half < r then q + 1
  else if q % 2 = 0 then q else q + 1

/-- Round a positive exact product significand to at most 53 bits, returning the
rounded significand together with the number of bits shifted out, so that the
rounded value is `mant * 2^shift` times the original binary exponent. -/
def roundSig53 (n : ℕ) : ℕ × ℕ :=
  let L := bitLen n
  if L ≤ 53 then (n, 0)
  else (rnShift n (L - 53), L - 53)

/-- A finite IEEE-754 double, as the dyadic rational `±mant * 2^exp`
(sign-magnitude, as in the binary64 format).  The representation is not
required to be normalized; all definitions below depend only on the value. -/
structure F64 where
  isNeg : Bool
  mant : ℕ
  exp : ℤ
  deriving DecidableEq, Repr

def LAMPORTS_PER_SOL : ℕ := 1000000000

/-- Model of `solana_native_token::sol_to_lamports`:
`(sol * LAMPORTS_PER_SOL as f64) as u64` — an IEEE-754 double multiplication
(round to nearest, ties to even) followed by Rust's saturating float-to-integer
cast (truncation toward zero; negative values clamp to 0, values above
`u64::MAX` clamp to `u64::MAX`).  `10^9` is exactly representable, so the
exact product is `±(mant * 10^9) * 2^exp` and the multiplication rounds its
significand to 53 bits. -/
def sol_to_lamports (sol : F64) : ℕ :=
  if sol.isNeg then 0
  else
    let p := roundSig53 (sol.mant * LAMPORTS_PER_SOL)
    let e : ℤ := sol.exp + (p.2 : ℤ)
    let floorVal := if 0 ≤ e then p.1 * 2 ^ e.toNat else p.1 / 2 ^ (-e).toNat
    min floorVal (2 ^ 64 - 1)

/-- The exact mathematical value `⌊x * 10^9⌋` for a non-negative double
`x = mant * 2^exp`, computed in integer arithmetic (the quantity the spec's
contract `amount_to_atomic(x) = floor(x * 10^9)` refers to). -/
def atomicFloorExact (sol : F64) : ℕ :=
  let n := sol.mant * LAMPORTS_PER_SOL
  if 0 ≤ sol.exp then n * 2 ^ sol.exp.toNat else n / 2 ^ (-sol.exp).toNat

/-- Addresses.  Derived addresses are modelled as constructors, which makes the
two pure derivations of the source (`find_withdraw_authority_program_address`,
`get_associated_token_address`) deterministic and collision-free by
construction, exactly as the spec treats these external primitives. -/
inductive Pubkey
  | base (id : ℕ)
  | assocTokenAddr (owner mint : Pubkey)
  | withdrawAuth (program pool : Pubkey)
  | splStakePoolProg
  | splTokenProg
  deriving DecidableEq, Repr

/-- `spl_stake_pool::id()` -/
def spl_stake_pool_id : Pubkey := .splStakePoolProg

/-- `spl_token::id()` -/
def spl_token_id : Pubkey := .splTokenProg

/-- `spl_stake_pool::find_withdraw_authority_program_address(...).0` -/
def find_withdraw_authority_program_address (program pooladdr : Pubkey) : Pubkey :=
  .withdrawAuth program pooladdr

/-- `spl_associated_token_account_client::address::get_associated_token_address` -/
def get_associated_token_address (owner mint : Pubkey) : Pubkey :=
  .assocTokenAddr owner mint

/-- The fields of `spl_stake_pool::state::StakePool` that `main.rs` reads. -/
structure StakePool where
  manager : Pubkey
  pool_mint : Pubkey
  reserve_stake : Pubkey
  manager_fee_account : Pubkey
  validator_list : Pubkey
  total_lamports : ℕ
  pool_token_supply : ℕ
  deriving DecidableEq, Repr

/-- `spl_stake_pool::state::ValidatorStakeInfo` (the fields `main.rs` uses);
`validator_seed_suffix` is a `u32`, `transient_seed_suffix` a `u64`. -/
structure ValidatorStakeInfo where
  vote_account_address : Pubkey
  active_stake_lamports : ℕ
  transient_stake_lamports : ℕ
  validator_seed_suffix : ℕ
  transient_seed_suffix : ℕ
  deriving DecidableEq, Repr

structure ValidatorList where
  validators : List ValidatorStakeInfo
  deriving DecidableEq, Repr

/-- `spl_stake_pool::state::ValidatorList::find`: first entry whose
`vote_account_address` equals the given vote account (iterator `find` in the
library; the spec describes it as the lookup by voting-account address). -/
def ValidatorList.find (vl : ValidatorList) (vote : Pubkey) : Option ValidatorStakeInfo :=
  vl.validators.find? (fun v => v.vote_account_address == vote)

/-- Instructions, modelled as the typed arguments the source passes to the
external encoders (`system_instruction::transfer`,
`spl_stake_pool::instruction::{deposit_sol, increase/decrease_additional_validator_stake_with_vote}`);
the encoded byte payloads are opaque to this program. -/
inductive Instruction
  | transfer (source dest : Pubkey) (lamports : ℕ)
  | depositSolInstr (program stakePoolAddr withdrawAuthority reserveStake fundingAccount
      destinationTokenAccount managerFeeAccount referrerTokenAccount poolMint
      tokenProgram : Pubkey) (lamports : ℕ)
  | increaseAdditionalValidatorStake (program : Pubkey) (pool : StakePool)
      (stakePoolAddr voteAccount : Pubkey) (lamports : ℕ) (validatorSeed : Option ℕ)
      (transientSeed : ℕ) (minimumDelegation : ℕ)
  | decreaseAdditionalValidatorStake (program : Pubkey) (pool : StakePool)
      (stakePoolAddr voteAccount : Pubkey) (lamports : ℕ) (validatorSeed : Option ℕ)
      (transientSeed : ℕ) (minimumDelegation : ℕ)
  | updateValidatorListBalance (voteAccount : Pubkey)
  deriving DecidableEq, Repr

/-- One `send_instructions` call: the instruction list of the transaction, the
fee payer, the signer keypairs (by their public keys) and whether the source
blocks on confirmation (`send_and_confirm_transaction_with_spinner`) or not
(`send_transaction`). -/
structure Batch where
  instructions : List Instruction
  feePayer : Pubkey
  signers : List Pubkey
  wait : Bool
  deriving DecidableEq, Repr

/-- Modelled from the spec: the external builder
`spl_stake_pool::instruction::update_stake_pool` is an opaque on-chain-program
encoder (spec §6); per the spec's maintenance-plan model it yields one
validator-update instruction per validator entry needing a refresh (its
pool-level `final_instructions` stay an opaque parameter below). -/
def buildUpdateInstructions (needing : List ValidatorStakeInfo) : List Instruction :=
  needing.map (fun v => .updateValidatorListBalance v.vote_account_address)

/-- `update_stake_pool` in `main.rs`: given the two instruction lists returned
by the external builder, submit each of the first `len - 1` validator-update
instructions as its own batch with `wait = false` (`split_off(len - 1)` leaves
them in place), then the split-off last one with `wait = true`, and finally the
pool-level instructions with `wait = true`; with an empty update list only the
final batch is submitted. -/
def update_stake_pool (update_list_instructions final_instructions : List Instruction)
    (payer : Pubkey) : List Batch :=
  let len := update_list_instructions.length
  (if 0 < len then
    ((update_list_instructions.take (len - 1)).map
        (fun i => Batch.mk [i] payer [payer] false))
      ++ [Batch.mk (update_list_instructions.drop (len - 1)) payer [payer] true]
  else [])
    ++ [Batch.mk final_instructions payer [payer] true]

/-- `deposit_sol` in `main.rs`: one batch, `wait = true`, holding the transfer
from the payer to the freshly generated ephemeral account followed by the
deposit instruction; the signer vector is
`[&fee_payer, &user_sol_transfer, &data.payer_keypair]` where `fee_payer` is a
clone of the payer keypair. -/
def deposit_sol (pool : StakePool) (payer eph pooladdr : Pubkey) (amount : F64) :
    List Batch :=
  let amountL := sol_to_lamports amount
  let pool_token_receiver_account := get_associated_token_address payer pool.pool_mint
  let referrer_token_account := pool_token_receiver_account
  let withdraw_authority :=
    find_withdraw_authority_program_address spl_stake_pool_id pooladdr
  let deposit_instruction :=
    Instruction.depositSolInstr spl_stake_pool_id pooladdr withdraw_authority
      pool.reserve_stake eph pool_token_receiver_account pool.manager_fee_account
      referrer_token_account pool.pool_mint spl_token_id amountL
  [Batch.mk [Instruction.transfer payer eph amountL, deposit_instruction]
      payer [payer, eph, payer] true]

/-- Error surface of the embedded operations (`.expect` on the validator lookup
in the source aborts the operation; the spec names this `ValidatorNotFound`). -/
inductive Err
  | validatorNotFound
  deriving DecidableEq, Repr

/-- `increase_validator_stake_with_vote` in `main.rs`: look the vote account up
in the validator list (aborting when absent), then submit one batch with
`wait = true` holding the single increase instruction; `NonZeroU32::new` turns
a zero `validator_seed_suffix` into `None`; the signer vector is
`[&payer, &payer]`. -/
def increase_validator_stake_with_vote (pool : StakePool) (vlist : ValidatorList)
    (payer pooladdr vote : Pubkey) (amount : F64) : Except Err (List Batch) :=
  let lamports := sol_to_lamports amount
  match vlist.find vote with
  | none => .error .validatorNotFound
  | some vsi =>
    let validator_seed : Option ℕ :=
      if vsi.validator_seed_suffix = 0 then none else some vsi.validator_seed_suffix
    let instr := Instruction.increaseAdditionalValidatorStake spl_stake_pool_id pool
      pooladdr vote lamports validator_seed vsi.transient_seed_suffix 0
    .ok [Batch.mk [instr] payer [payer, payer] true]

/-- `decrease_validator_stake_with_vote` in `main.rs`: identical control flow
to the increase operation, building the decrease instruction instead. -/
def decrease_validator_stake_with_vote (pool : StakePool) (vlist : ValidatorList)
    (payer pooladdr vote : Pubkey) (amount : F64) : Except Err (List Batch) :=
  let lamports := sol_to_lamports amount
  match vlist.find vote with
  | none => .error .validatorNotFound
  | some vsi =>
    let validator_seed : Option ℕ :=
      if vsi.validator_seed_suffix = 0 then none else some vsi.validator_seed_suffix
    let instr := Instruction.decreaseAdditionalValidatorStake spl_stake_pool_id pool
      pooladdr vote lamports validator_seed vsi.transient_seed_suffix 0
    .ok [Batch.mk [instr] payer [payer, payer] true]

/-- The CLI subcommands (`Command` in `main.rs`). -/
inductive Command
  | depositSolCmd (amount : F64)
  | increaseValidatorStake (vote : Pubkey) (amount : F64)
  | decreaseValidatorStake (vote : Pubkey) (amount : F64)
  deriving DecidableEq, Repr

/-- The batches the requested operation submits (the `match args.command` arm of
`main`); an operation that aborts on its precondition submits nothing. -/
def run_command (cmd : Command) (pool : StakePool) (vlist : ValidatorList)
    (payer eph pooladdr : Pubkey) : List Batch :=
  match cmd with
  | .depositSolCmd amount => deposit_sol pool payer eph pooladdr amount
  | .increaseValidatorStake vote amount =>
    match increase_validator_stake_with_vote pool vlist payer pooladdr vote amount with
    | .ok bs => bs
    | .error _ => []
  | .decreaseValidatorStake vote amount =>
    match decrease_validator_stake_with_vote pool vlist payer pooladdr vote amount with
    | .ok bs => bs
    | .error _ => []

/-- `main` in `main.rs`: after the read-only reporting, it always runs
`update_stake_pool` and only then dispatches on the subcommand. -/
def main_run (cmd : Command) (pool : StakePool) (vlist : ValidatorList)
    (needing : List ValidatorStakeInfo) (final_instructions : List Instruction)
    (payer eph pooladdr : Pubkey) : List Batch :=
  update_stake_pool (buildUpdateInstructions needing) final_instructions payer
    ++ run_command cmd pool vlist payer eph pooladdr

/-- The lamports argument carried by an instruction (0 for the maintenance
instructions, which carry none). -/
def instrLamports : Instruction → ℕ
  | .transfer _ _ l => l
  | .depositSolInstr _ _ _ _ _ _ _ _ _ _ l => l
  | .increaseAdditionalValidatorStake _ _ _ _ l _ _ _ => l
  | .decreaseAdditionalValidatorStake _ _ _ _ l _ _ _ => l
  | .updateValidatorListBalance _ => 0

/-- Replace an increase instruction by the decrease instruction with the very
same arguments; every other instruction is left unchanged. -/
def toDecreaseInstruction : Instruction → Instruction
  | .increaseAdditionalValidatorStake pr pool addr vote l vs ts md =>
      .decreaseAdditionalValidatorStake pr pool addr vote l vs ts md
  | i => i

/-- Apply an instruction transformation inside a batch, keeping fee payer,
signers and wait flag. -/
def mapBatchInstructions (f : Instruction → Instruction) (b : Batch) : Batch :=
  Batch.mk (b.instructions.map f) b.feePayer b.signers b.wait

/-- A concrete pool used to instantiate hypotheses of the theorems below. -/
def pool₀ : StakePool :=
  ⟨.base 10, .base 11, .base 12, .base 13, .base 14, 1000, 500⟩

/-- A concrete validator entry (vote account `base 20`, default validator seed,
transient seed suffix 7, as in the spec's end-to-end scenario 3). -/
def vsi₀ : ValidatorStakeInfo := ⟨.base 20, 7, 8, 0, 7⟩

def vlist₀ : ValidatorList := ⟨[vsi₀]⟩

/-- The IEEE-754 double nearest to 1, i.e. 1.0 exactly. -/
def oneF64 : F64 := ⟨false, 1, 0⟩

/-- The IEEE-754 double nearest to 2.3: `5179139571476070 * 2^(-51)`
(that it is the nearest is proved where it is used). -/
def twoPointThreeF64 : F64 := ⟨false, 5179139571476070, -51⟩

def batchDefault : Batch := ⟨[], .base 0, [], false⟩

lemma drop_pred_map_batch (u : ValidatorStakeInfo → Instruction) (p : Pubkey) :
    ∀ (l : List ValidatorStakeInfo), l ≠ [] →
      [Batch.mk ((l.map u).drop (l.length - 1)) p [p] true]
        = (l.drop (l.length - 1)).map (fun v => Batch.mk [u v] p [p] true)
  | [], h => absurd rfl h
  | [_], _ => rfl
  | x :: y :: t, _ => by
    have ih := drop_pred_map_batch u p (y :: t) (by simp)
    simpa using ih

/-- C1: for a validator list in which `N` entries need a refresh, the
maintenance plan of `update_stake_pool` is exactly `N` single-instruction
validator-update batches — the first `N - 1` with `wait = false` and the `N`th
with `wait = true` — followed by exactly one final pool-level batch with
`wait = true`; with `N = 0` the validator-update stage is empty and only the
final `wait = true` batch is produced and submitted (the plan always has
`N + 1` batches). -/
theorem maintenance_plan_shape (needing : List ValidatorStakeInfo)
    (final_instructions : List Instruction) (payer : Pubkey) :
    update_stake_pool (buildUpdateInstructions needing) final_instructions payer
      = ((needing.take (needing.length - 1)).map
          (fun v => Batch.mk [.updateValidatorListBalance v.vote_account_address]
            payer [payer] false))
        ++ ((needing.drop (needing.length - 1)).map
          (fun v => Batch.mk [.updateValidatorListBalance v.vote_account_address]
            payer [payer] true))
        ++ [Batch.mk final_instructions payer [payer] true]
      ∧ (update_stake_pool (buildUpdateInstructions needing) final_instructions
          payer).length = needing.length + 1 := by
  have key : update_stake_pool (buildUpdateInstructions needing) final_instructions payer
      = ((needing.take (needing.length - 1)).map
          (fun v => Batch.mk [.updateValidatorListBalance v.vote_account_address]
            payer [payer] false))
        ++ ((needing.drop (needing.length - 1)).map
          (fun v => Batch.mk [.updateValidatorListBalance v.vote_account_address]
            payer [payer] true))
        ++ [Batch.mk final_instructions payer [payer] true] := by
    cases needing with
    | nil => rfl
    | cons x t =>
      have h2 := drop_pred_map_batch
        (fun v => .updateValidatorListBalance v.vote_account_address) payer (x :: t)
        (by simp)
      simp only [update_stake_pool, buildUpdateInstructions, List.length_map,
        List.length_cons, Nat.zero_lt_succ, if_pos, Nat.add_sub_cancel,
        List.map_take, List.map_map] at h2 ⊢
      rw [List.append_assoc, h2, ← List.append_assoc]
      rfl
  refine ⟨key, ?_⟩
  rw [key]
  simp only [List.length_append, List.length_map, List.length_take,
    List.length_drop, List.length_cons, List.length_nil]
  omega

/-- C8: in every invocation, `main` submits the full maintenance plan (which is
never empty: it always contains the final pool-level batch) strictly before any
batch of the requested user operation; the operation's batches are exactly the
suffix after the maintenance plan. -/
theorem maintenance_before_operation (cmd : Command) (pool : StakePool)
    (vlist : ValidatorList) (needing : List ValidatorStakeInfo)
    (final_instructions : List Instruction) (payer eph pooladdr : Pubkey) :
    main_run cmd pool vlist needing final_instructions payer eph pooladdr
      = update_stake_pool (buildUpdateInstructions needing) final_instructions payer
        ++ run_command cmd pool vlist payer eph pooladdr
      ∧ update_stake_pool (buildUpdateInstructions needing) final_instructions payer
          ≠ [] := by
  refine ⟨rfl, ?_⟩
  have h : ∀ (a : List Batch) (b : Batch), a ++ [b] ≠ [] := by
    intro a b hc
    simpa using congrArg List.length hc
  exact h _ _

/-- C2 counterexample: the IEEE-754 double nearest to 2.3 is
`5179139571476070 * 2^(-51)` (pinned down by the two midpoint inequalities
below), a non-negative finite input; on it the code returns 2_300_000_000 —
the double product rounds up across the integer boundary — while
`⌊x * 10^9⌋ = 2_299_999_999`, so the conversion is not `floor(x * 10^9)` for
every non-negative finite input. -/
theorem amount_conversion_floor_counterexample :
    twoPointThreeF64.isNeg = false
      ∧ 10 * (2 * twoPointThreeF64.mant - 1) < 23 * 2 ^ 52
      ∧ 23 * 2 ^ 52 < 10 * (2 * twoPointThreeF64.mant + 1)
      ∧ sol_to_lamports twoPointThreeF64 = 2300000000
      ∧ atomicFloorExact twoPointThreeF64 = 2299999999
      ∧ sol_to_lamports twoPointThreeF64 ≠ atomicFloorExact twoPointThreeF64 := by
  decide

/-- C2 (amended): the conversion truncates toward zero the round-to-nearest
double product x·10⁹ (saturating at `u64::MAX`); it agrees with the exact
`⌊x * 10^9⌋` whenever the product significand fits in 53 bits so that the
multiplication is exact, and the two anchor values hold:
`amount_to_atomic(1.0) = 1_000_000_000` and
`amount_to_atomic(2.3) = 2_300_000_000`. -/
theorem amount_conversion_amended :
    (∀ x : F64, x.isNeg = false → bitLen (x.mant * LAMPORTS_PER_SOL) ≤ 53 →
      sol_to_lamports x = min (atomicFloorExact x) (2 ^ 64 - 1))
      ∧ sol_to_lamports oneF64 = 1000000000
      ∧ sol_to_lamports twoPointThreeF64 = 2300000000 := by
  refine ⟨?_, by decide, by decide⟩
  intro x hneg hfit
  simp only [sol_to_lamports, atomicFloorExact, roundSig53, hneg, Bool.false_eq_true,
    if_false, if_pos hfit, Nat.cast_zero, Int.add_zero]

theorem amount_conversion_amended_witness :
    oneF64.isNeg = false
      ∧ bitLen (oneF64.mant * LAMPORTS_PER_SOL) ≤ 53
      ∧ sol_to_lamports oneF64 = min (atomicFloorExact oneF64) (2 ^ 64 - 1) :=
  ⟨rfl, by decide, amount_conversion_amended.1 oneF64 rfl (by decide)⟩

/-- C3: what the code actually does at the failing input −1.0 SOL: the
conversion saturates the negative amount to 0 lamports (there is no
`InvalidAmount` anywhere in the code) and `deposit_sol` still builds and
submits its two-instruction batch carrying amount 0 — contradicting the claim
that a negative amount makes the operation fail before any instruction is
built. -/
theorem negative_amount_saturates_and_builds :
    sol_to_lamports ⟨true, 1, 0⟩ = 0
      ∧ run_command (.depositSolCmd ⟨true, 1, 0⟩) pool₀ vlist₀ (.base 0) (.base 1)
          (.base 2) ≠ []
      ∧ (deposit_sol pool₀ (.base 0) (.base 1) (.base 2) ⟨true, 1, 0⟩).length = 1
      ∧ ((deposit_sol pool₀ (.base 0) (.base 1) (.base 2) ⟨true, 1, 0⟩).headD
          batchDefault).instructions.length = 2
      ∧ ((deposit_sol pool₀ (.base 0) (.base 1) (.base 2) ⟨true, 1, 0⟩).headD
          batchDefault).instructions.map instrLamports = [0, 0] := by
  decide

lemma find_eq_some_of_mem_unique :
    ∀ (l : List ValidatorStakeInfo) (vote : Pubkey) (v : ValidatorStakeInfo),
      v ∈ l → v.vote_account_address = vote →
      l.Pairwise (fun a b => a.vote_account_address ≠ b.vote_account_address) →
      l.find? (fun x => x.vote_account_address == vote) = some v
  | [], _, v, hm, _, _ => absurd hm (List.not_mem_nil v)
  | x :: t, vote, v, hm, hv, hp => by
    rcases List.mem_cons.mp hm with rfl | hmt
    · exact List.find?_cons_of_pos _ (by simp [hv])
    · have hx : x.vote_account_address ≠ vote := by
        have hne := (List.pairwise_cons.mp hp).1 v hmt
        rwa [hv] at hne
      rw [List.find?_cons_of_neg _ (by simp [hx])]
      exact find_eq_some_of_mem_unique t vote v hmt hv (List.pairwise_cons.mp hp).2

/-- C4: a stake-adjustment request whose vote account is absent from the
validator list fails with `ValidatorNotFound` for both increase and decrease
and the operation submits no batch at all; when the vote account is present in
a list satisfying the uniqueness invariant on voting addresses, the lookup
returns the unique matching entry. -/
theorem validator_lookup_behaviour :
    (∀ (pool : StakePool) (vlist : ValidatorList) (payer eph pooladdr vote : Pubkey)
        (amount : F64),
      (∀ v ∈ vlist.validators, v.vote_account_address ≠ vote) →
      increase_validator_stake_with_vote pool vlist payer pooladdr vote amount
          = .error .validatorNotFound
        ∧ decrease_validator_stake_with_vote pool vlist payer pooladdr vote amount
          = .error .validatorNotFound
        ∧ run_command (.increaseValidatorStake vote amount) pool vlist payer eph
            pooladdr = []
        ∧ run_command (.decreaseValidatorStake vote amount) pool vlist payer eph
            pooladdr = [])
      ∧ (∀ (vlist : ValidatorList) (vote : Pubkey) (v : ValidatorStakeInfo),
        v ∈ vlist.validators → v.vote_account_address = vote →
        vlist.validators.Pairwise
          (fun a b => a.vote_account_address ≠ b.vote_account_address) →
        vlist.find vote = some v) := by
  constructor
  · intro pool vlist payer eph pooladdr vote amount habs
    have hfind : vlist.find vote = none := by
      rw [ValidatorList.find, List.find?_eq_none]
      intro v hvmem
      simp [habs v hvmem]
    refine ⟨?_, ?_, ?_, ?_⟩ <;>
      simp [increase_validator_stake_with_vote, decrease_validator_stake_with_vote,
        run_command, hfind]
  · intro vlist vote v hm hv hp
    exact find_eq_some_of_mem_unique vlist.validators vote v hm hv hp

theorem validator_lookup_behaviour_witness :
    increase_validator_stake_with_vote pool₀ vlist₀ (.base 0) (.base 2) (.base 99)
        oneF64 = .error .validatorNotFound
      ∧ vlist₀.find (.base 20) = some vsi₀ :=
  ⟨(validator_lookup_behaviour.1 pool₀ vlist₀ (.base 0) (.base 1) (.base 2) (.base 99)
      oneF64 (by decide)).1,
   validator_lookup_behaviour.2 vlist₀ (.base 20) vsi₀ (by decide) (by decide)
     (by simp [vlist₀])⟩

/-- C5: when the validator lookup succeeds, each stake-adjustment operation
produces exactly one single-instruction batch with `wait = true`, whose
instruction carries the converted amount, a minimum-delegation parameter fixed
at 0, the transient seed taken directly from the entry's
transient-seed-suffix, and a validator seed that is absent exactly when the
entry's validator-seed-suffix is zero and otherwise equals that suffix. -/
theorem stake_adjustment_plan_shape (pool : StakePool) (vlist : ValidatorList)
    (payer pooladdr vote : Pubkey) (amount : F64) (vsi : ValidatorStakeInfo)
    (h : vlist.find vote = some vsi) :
    increase_validator_stake_with_vote pool vlist payer pooladdr vote amount
      = .ok [Batch.mk [Instruction.increaseAdditionalValidatorStake spl_stake_pool_id
          pool pooladdr vote (sol_to_lamports amount)
          (if vsi.validator_seed_suffix = 0 then none else some vsi.validator_seed_suffix)
          vsi.transient_seed_suffix 0] payer [payer, payer] true]
      ∧ decrease_validator_stake_with_vote pool vlist payer pooladdr vote amount
        = .ok [Batch.mk [Instruction.decreaseAdditionalValidatorStake spl_stake_pool_id
            pool pooladdr vote (sol_to_lamports amount)
            (if vsi.validator_seed_suffix = 0 then none else some vsi.validator_seed_suffix)
            vsi.transient_seed_suffix 0] payer [payer, payer] true]
      ∧ ((if vsi.validator_seed_suffix = 0 then none
            else some vsi.validator_seed_suffix : Option ℕ) = none
          ↔ vsi.validator_seed_suffix = 0) := by
  refine ⟨?_, ?_, ?_⟩
  · simp [increase_validator_stake_with_vote, h]
  · simp [decrease_validator_stake_with_vote, h]
  · split <;> simp_all

theorem stake_adjustment_plan_shape_witness :
    increase_validator_stake_with_vote pool₀ vlist₀ (.base 0) (.base 2) (.base 20)
        oneF64
      = .ok [Batch.mk [Instruction.increaseAdditionalValidatorStake spl_stake_pool_id
          pool₀ (.base 2) (.base 20) (sol_to_lamports oneF64)
          (if vsi₀.validator_seed_suffix = 0 then none else some vsi₀.validator_seed_suffix)
          vsi₀.transient_seed_suffix 0] (.base 0) [.base 0, .base 0] true] :=
  (stake_adjustment_plan_shape pool₀ vlist₀ (.base 0) (.base 2) (.base 20) oneF64 vsi₀
    (by decide)).1

/-- C6: the deposit plan is exactly one batch of exactly two instructions in
fixed order — the transfer from the payer to the ephemeral account first, the
deposit instruction second — with `wait = true`; the referrer token account is
the same address as the payer's associated pool-token destination account
(the default when no referrer is specified — the source never specifies one). -/
theorem deposit_plan_shape (pool : StakePool) (payer eph pooladdr : Pubkey)
    (amount : F64) :
    deposit_sol pool payer eph pooladdr amount
      = [Batch.mk
          [Instruction.transfer payer eph (sol_to_lamports amount),
           Instruction.depositSolInstr spl_stake_pool_id pooladdr
             (find_withdraw_authority_program_address spl_stake_pool_id pooladdr)
             pool.reserve_stake eph
             (get_associated_token_address payer pool.pool_mint)
             pool.manager_fee_account
             (get_associated_token_address payer pool.pool_mint)
             pool.pool_mint spl_token_id (sol_to_lamports amount)]
          payer [payer, eph, payer] true] := rfl

/-- C7: every submitted batch is signed by exactly the signer set named by the
claim: the deposit batch by the set {payer, ephemeral account}, and every
maintenance batch and every stake-adjustment batch only by the fee payer. -/
theorem signer_sets (pool : StakePool) (vlist : ValidatorList)
    (needing : List ValidatorStakeInfo) (final_instructions : List Instruction)
    (payer eph pooladdr vote : Pubkey) (amount : F64) :
    (∀ b ∈ deposit_sol pool payer eph pooladdr amount,
        b.signers.toFinset = {payer, eph})
      ∧ (∀ b ∈ update_stake_pool (buildUpdateInstructions needing) final_instructions
            payer, b.signers.toFinset = {payer})
      ∧ (∀ bs, increase_validator_stake_with_vote pool vlist payer pooladdr vote amount
          = .ok bs → ∀ b ∈ bs, b.signers.toFinset = {payer})
      ∧ (∀ bs, decrease_validator_stake_with_vote pool vlist payer pooladdr vote amount
          = .ok bs → ∀ b ∈ bs, b.signers.toFinset = {payer}) := by
  refine ⟨?_, ?_, ?_, ?_⟩
  · intro b hb
    simp only [deposit_sol, List.mem_singleton] at hb
    subst hb
    ext a
    simp [or_comm, or_assoc, or_left_comm]
  · intro b hb
    simp only [update_stake_pool] at hb
    rcases List.mem_append.mp hb with h1 | h2
    · split at h1
      · rcases List.mem_append.mp h1 with h3 | h4
        · obtain ⟨i, _, rfl⟩ := List.mem_map.mp h3
          simp
        · simp only [List.mem_singleton] at h4
          subst h4
          simp
      · simp at h1
    · simp only [List.mem_singleton] at h2
      subst h2
      simp
  · intro bs he b hb
    cases hf : vlist.find vote with
    | none => simp [increase_validator_stake_with_vote, hf] at he
    | some vsi =>
      simp only [increase_validator_stake_with_vote, hf, Except.ok.injEq] at he
      subst he
      simp only [List.mem_singleton] at hb
      subst hb
      simp
  · intro bs he b hb
    cases hf : vlist.find vote with
    | none => simp [decrease_validator_stake_with_vote, hf] at he
    | some vsi =>
      simp only [decrease_validator_stake_with_vote, hf, Except.ok.injEq] at he
      subst he
      simp only [List.mem_singleton] at hb
      subst hb
      simp

theorem signer_sets_witness :
    ((deposit_sol pool₀ (.base 0) (.base 1) (.base 2) oneF64).headD
        batchDefault).signers.toFinset = {Pubkey.base 0, Pubkey.base 1}
      ∧ ((update_stake_pool (buildUpdateInstructions []) [] (.base 0)).headD
          batchDefault).signers.toFinset = {Pubkey.base 0}
      ∧ (Batch.mk [Instruction.increaseAdditionalValidatorStake spl_stake_pool_id pool₀
          (.base 2) (.base 20) (sol_to_lamports oneF64) none 7 0] (.base 0)
          [.base 0, .base 0] true).signers.toFinset = {Pubkey.base 0} := by
  refine ⟨?_, ?_, ?_⟩
  · exact (signer_sets pool₀ vlist₀ [] [] (.base 0) (.base 1) (.base 2) (.base 20)
      oneF64).1 _ (by simp [deposit_sol])
  · exact (signer_sets pool₀ vlist₀ [] [] (.base 0) (.base 1) (.base 2) (.base 20)
      oneF64).2.1 _ (by simp [update_stake_pool, buildUpdateInstructions])
  · exact (signer_sets pool₀ vlist₀ [] [] (.base 0) (.base 1) (.base 2) (.base 20)
      oneF64).2.2.1
      [Batch.mk [Instruction.increaseAdditionalValidatorStake spl_stake_pool_id pool₀
        (.base 2) (.base 20) (sol_to_lamports oneF64) none 7 0] (.base 0)
        [.base 0, .base 0] true]
      (by rfl) _ (by simp)

/-- C9: within every deposit plan the transfer instruction and the deposit
instruction carry the same atomic amount — the single value produced by the
one conversion of the requested amount. -/
theorem deposit_amounts_agree (pool : StakePool) (payer eph pooladdr : Pubkey)
    (amount : F64) :
    (deposit_sol pool payer eph pooladdr amount).map
        (fun b => b.instructions.map instrLamports)
      = [[sol_to_lamports amount, sol_to_lamports amount]] := rfl

/-- C10: with identical inputs, the decrease operation's plan is exactly the
increase operation's plan with each increase instruction replaced by the
decrease instruction carrying the very same arguments (same converted amount,
validator and transient seeds, zero minimum delegation, fee payer, signer list
and single-instruction `wait = true` batch shape); lookup failures agree as
well. -/
theorem increase_decrease_equiv (pool : StakePool) (vlist : ValidatorList)
    (payer pooladdr vote : Pubkey) (amount : F64) :
    decrease_validator_stake_with_vote pool vlist payer pooladdr vote amount
      = Except.map (List.map (mapBatchInstructions toDecreaseInstruction))
          (increase_validator_stake_with_vote pool vlist payer pooladdr vote amount) := by
  cases hf : vlist.find vote with
  | none =>
    simp [increase_validator_stake_with_vote, decrease_validator_stake_with_vote, hf,
      Except.map]
  | some vsi =>
    simp [increase_validator_stake_with_vote, decrease_validator_stake_with_vote, hf,
      Except.map, mapBatchInstructions, toDecreaseInstruction]
